import Mathlib

/-!
Shallow embedding of the rslint-staged core (src/main.rs): configuration
compilation (`RslintStagedConfig.from_json`), staged-file discovery
(`staged_files` over a model of the libgit2 head-tree-to-index diff), and the
dispatch loop (`execModel`), together with proofs settling the frozen claims.

Modelling conventions:
* Filesystem paths are lists of components (`Path`); `PathBuf::join` with a
  relative path is list append.
* Rust panics (`unwrap` on `None`/`Err`, `unreachable!`, `panic!`, slice
  indexing out of bounds) are modelled as `Except.error` carrying an `RPanic`
  value, kept distinct from any recoverable error value: the source has no
  recoverable configuration or dispatch error type at all.
* The compiled glob matcher (`globset`, an external crate) is an opaque
  predicate `Path → Bool`; glob parsing (`globset::Glob::new`, which can fail)
  is a parameter of type `String → Option (Path → Bool)`.
* Process spawning is recorded as trace events; whether `Command::spawn`
  succeeds for a given executable is an oracle `String → Bool`. The source
  never calls `wait` on any spawned child, so the event language's `waitEvt`
  constructor is never produced by the model.
* `exec`'s `_has_initial_commit` block (main.rs lines 137-150) is elided: it
  binds a variable that is never read and contains a line that does not
  compile (`repo.stash_save(stasher, message, flags)` with undeclared
  identifiers).
* `rayon`'s `par_iter().for_each` imposes no ordering across rules; the model
  keeps one event list per rule (temporally ordered within the rule) and a
  global trace is any interleaving of the per-rule lists (`Interleave`).
-/

namespace Rslint

/-- Filesystem path as a list of components; `root.join(rel)` is list append. -/
abbrev Path := List String

/-- One libgit2 diff delta: `delta.old_file().path()` and `delta.new_file().path()`. -/
structure Delta where
  old : Option Path
  new : Option Path
  deriving DecidableEq, Repr

/-- A Rust panic (uncontrolled termination), as opposed to a recoverable error value. -/
inductive RPanic where
  | unwrapNone
  | unreachableReached
  | indexOutOfBounds
  | explicitPanic (msg : String)
  deriving DecidableEq, Repr

/-- The loop of `Vec::dedup`: drop an element equal to the previously kept
element `prev`, keep it otherwise. -/
def rustDedupAux (prev : Path) : List Path → List Path
  | [] => []
  | b :: t => if prev = b then rustDedupAux prev t else b :: rustDedupAux b t

/-- `Vec::dedup` (main.rs line 117): removes consecutive repeated elements,
keeping the first element of each run of equal elements. -/
def rustDedup : List Path → List Path
  | [] => []
  | a :: t => a :: rustDedupAux a t

/-- `u8::is_ascii_whitespace`: space, horizontal tab, line feed, form feed,
carriage return. -/
def isAsciiWs (c : Char) : Bool :=
  c == ' ' || c == '\t' || c == '\n' || c == Char.ofNat 12 || c == '\r'

/-- Splitter used to model `str::split_ascii_whitespace`: tokens are the
maximal runs of non-whitespace characters, the accumulator holds the current
run reversed. -/
def wsTokensAux : List Char → List Char → List (List Char)
  | [], acc => if acc.isEmpty then [] else [acc.reverse]
  | c :: cs, acc =>
    if isAsciiWs c then
      if acc.isEmpty then wsTokensAux cs []
      else acc.reverse :: wsTokensAux cs []
    else wsTokensAux cs (c :: acc)

/-- `command.split_ascii_whitespace().collect::<Vec<_>>()` (main.rs lines 174-177). -/
def splitAsciiWhitespace (s : String) : List String :=
  (wsTokensAux s.toList []).map List.asString

/-- One configuration entry (main.rs `RslintStagedConfigItem`). -/
structure RslintStagedConfigItem where
  glob_pat : String
  path_matcher : Path → Bool
  commands : List String

/-- main.rs `RslintStagedConfig`. -/
structure RslintStagedConfig where
  items : List RslintStagedConfigItem

/-- Model of `serde_json::Value`. -/
inductive JsonValue where
  | null
  | bool (b : Bool)
  | num (n : Int)
  | str (s : String)
  | arr (elems : List JsonValue)
  | obj (fields : List (String × JsonValue))

/-- `serde_json::from_value::<Vec<String>>`: succeeds exactly when every array
element is a string. -/
def stringsFromJson : List JsonValue → Option (List String)
  | [] => some []
  | JsonValue.str s :: rest => (stringsFromJson rest).map (s :: ·)
  | _ :: _ => none

/-- One entry of the config object (main.rs lines 50-69): the glob pattern is
compiled with `.unwrap()` first; then the value is matched — a single string
becomes a one-element command list, an array goes through
`serde_json::from_value(..).unwrap()` (panics on a non-string element), and
any other value hits `unreachable!`. -/
def itemFromEntry (globParse : String → Option (Path → Bool)) :
    String × JsonValue → Except RPanic RslintStagedConfigItem
  | (glob_pat, value) =>
    match globParse glob_pat with
    | none => Except.error RPanic.unwrapNone
    | some path_matcher =>
      match value with
      | JsonValue.str command => Except.ok ⟨glob_pat, path_matcher, [command]⟩
      | JsonValue.arr elems =>
        match stringsFromJson elems with
        | some commands => Except.ok ⟨glob_pat, path_matcher, commands⟩
        | none => Except.error RPanic.unwrapNone
      | _ => Except.error RPanic.unreachableReached

/-- The entry map of `from_json`, processing the object's fields in order; the
first panicking entry aborts (a Rust panic unwinds out of the iterator). -/
def itemsFromFields (globParse : String → Option (Path → Bool)) :
    List (String × JsonValue) → Except RPanic (List RslintStagedConfigItem)
  | [] => Except.ok []
  | entry :: rest =>
    match itemFromEntry globParse entry with
    | Except.error e => Except.error e
    | Except.ok item =>
      match itemsFromFields globParse rest with
      | Except.error e => Except.error e
      | Except.ok items => Except.ok (item :: items)

/-- `RslintStagedConfig::from_json` (main.rs lines 46-75): a non-object top
level hits `panic!("Unvalid config")`. -/
def RslintStagedConfig.from_json (globParse : String → Option (Path → Bool))
    (j : JsonValue) : Except RPanic RslintStagedConfig :=
  match j with
  | JsonValue.obj fields =>
    match itemsFromFields globParse fields with
    | Except.error e => Except.error e
    | Except.ok items => Except.ok ⟨items⟩
  | _ => Except.error (RPanic.explicitPanic "Unvalid config")

/-- The repository state `Repo::staged_files` depends on: whether
`head().peel_to_tree()` resolves to a tree, and the delta list of
`diff_tree_to_index`. -/
structure RepoState where
  headTree : Option Unit
  diffDeltas : List Delta

/-- The delta-processing part of `Repo::staged_files` (main.rs lines 111-118):
collect old and new path of every delta, drop the missing ones, join against
the repository root, then `Vec::dedup`. -/
def stagedFromDeltas (root : Path) (deltas : List Delta) : List Path :=
  rustDedup (((deltas.flatMap fun d => [d.old, d.new]).filterMap id).map fun p => root ++ p)

/-- `Repo::staged_files` (main.rs lines 104-119):
`repo.head().unwrap().peel_to_tree().unwrap()` panics when HEAD does not
resolve to a tree (e.g. a fresh repository with no commits). -/
def staged_files (root : Path) (st : RepoState) : Except RPanic (List Path) :=
  match st.headTree with
  | none => Except.error RPanic.unwrapNone
  | some _ => Except.ok (stagedFromDeltas root st.diffDeltas)

/-- A recorded `Command::spawn` call: executable, static args, then the
rule-filtered staged paths appended as trailing arguments. -/
structure SpawnEvent where
  exe : String
  args : List String
  pathArgs : List Path
  deriving DecidableEq, Repr

/-- Process events. The source never calls `wait` on any child; the `waitEvt`
constructor exists so that fact can be stated. -/
inductive Event where
  | spawnEvt (e : SpawnEvent)
  | waitEvt (childIdx : Nat)
  deriving DecidableEq, Repr

def isWaitE : Event → Bool
  | Event.waitEvt _ => true
  | Event.spawnEvt _ => false

def eventPathArgs : Event → List Path
  | Event.spawnEvt e => e.pathArgs
  | Event.waitEvt _ => []

/-- main.rs lines 169-172: the staged list filtered by this rule's matcher. -/
def ruleFiltered (staged : List Path) (item : RslintStagedConfigItem) : List Path :=
  staged.filter item.path_matcher

/-- main.rs lines 173-184: for each command string in order, split on ASCII
whitespace, index token 0 (panics when there is no token), and spawn the
child; `spawn().unwrap()` panics when spawning fails. No wait is ever
issued. -/
def spawnCommands (filtered : List Path) (spawnOk : String → Bool) :
    List String → Except RPanic (List Event)
  | [] => Except.ok []
  | cmd :: rest =>
    match splitAsciiWhitespace cmd with
    | [] => Except.error RPanic.indexOutOfBounds
    | exe :: args =>
      if spawnOk exe then
        match spawnCommands filtered spawnOk rest with
        | Except.error e => Except.error e
        | Except.ok evts => Except.ok (Event.spawnEvt ⟨exe, args, filtered⟩ :: evts)
      else Except.error RPanic.unwrapNone

/-- The per-rule body of the `par_iter().for_each` (main.rs lines 167-185). -/
def ruleEvents (spawnOk : String → Bool) (staged : List Path)
    (item : RslintStagedConfigItem) : Except RPanic (List Event) :=
  spawnCommands (ruleFiltered staged item) spawnOk item.commands

/-- All rules' event lists; a panic in any rule propagates out of the
`par_iter` to the caller. -/
def dispatchRules (spawnOk : String → Bool) (staged : List Path) :
    List RslintStagedConfigItem → Except RPanic (List (List Event))
  | [] => Except.ok []
  | item :: rest =>
    match ruleEvents spawnOk staged item with
    | Except.error e => Except.error e
    | Except.ok evts =>
      match dispatchRules spawnOk staged rest with
      | Except.error e => Except.error e
      | Except.ok trs => Except.ok (evts :: trs)

/-- `RslintStaged::exec` (main.rs lines 136-187) minus the elided
`_has_initial_commit` block: empty staged list panics unless quiet, then the
rules are dispatched. -/
def execModel (spawnOk : String → Bool) (cfg : RslintStagedConfig)
    (staged : List Path) (quiet : Bool) : Except RPanic (List (List Event)) :=
  if staged.isEmpty && !quiet then
    Except.error (RPanic.explicitPanic "Empty staged files")
  else dispatchRules spawnOk staged cfg.items

/-- `main` (main.rs lines 190-209) ignores `exec`'s returned `Result`; the
process exit code is 0 unless a panic aborted the run (Rust's panic exit
code is 101). -/
def mainExitCode (r : Except RPanic (List (List Event))) : Nat :=
  match r with
  | Except.ok _ => 0
  | Except.error _ => 101

/-- A trace is an interleaving of two rules' event lists: rayon runs rules
concurrently with no cross-rule ordering. -/
inductive Interleave : List Event → List Event → List Event → Prop where
  | nil : Interleave [] [] []
  | left {x xs ys zs} : Interleave xs ys zs → Interleave (x :: xs) ys (x :: zs)
  | right {y xs ys zs} : Interleave xs ys zs → Interleave xs (y :: ys) (y :: zs)

def isSpawnE : Event → Bool
  | Event.spawnEvt _ => true
  | Event.waitEvt _ => false

def countSpawnsTotal (tr : List (List Event)) : Nat :=
  (tr.map fun es => es.countP isSpawnE).sum

/-- Whether a run outcome is a success (as opposed to a Rust panic). -/
def isOkB {α : Type} : Except RPanic α → Bool
  | Except.ok _ => true
  | Except.error _ => false

def isStrJson : JsonValue → Bool
  | JsonValue.str _ => true
  | _ => false

/-- A config value that `from_json` accepts: a single command string or an
array of command strings. -/
def valueOk : JsonValue → Bool
  | JsonValue.str _ => true
  | JsonValue.arr elems => elems.all isStrJson
  | _ => false

/-- A config entry that `from_json` accepts: its glob parses and its value is
well-formed. -/
def entryOk (globParse : String → Option (Path → Bool))
    (entry : String × JsonValue) : Bool :=
  (globParse entry.1).isSome && valueOk entry.2

def jsonIsObj : JsonValue → Bool
  | JsonValue.obj _ => true
  | _ => false

/-- Glob parser for the C5 counterexample: fails on the malformed pattern
`[` (an unclosed character class fails in `globset` too). -/
def badGlobOracle : String → Option (Path → Bool) :=
  fun s => if s = "[" then none else some fun _ => true

/-- Config whose single rule runs `false`, a command that always exits with
status 1. -/
def cfgFalse : RslintStagedConfig := ⟨[⟨"*", fun p => p == ["a.js"], ["false"]⟩]⟩

/-- Config whose first rule's command is an executable that fails to spawn. -/
def cfgMissing : RslintStagedConfig :=
  ⟨[⟨"*", fun p => p == ["a.js"], ["notfound"]⟩, ⟨"*", fun p => p == ["a.js"], ["echo"]⟩]⟩

/-- Config with a single always-matching rule running `echo`. -/
def cfgEcho : RslintStagedConfig := ⟨[⟨"*", fun _ => true, ["echo"]⟩]⟩

/-- Demo rule for C7: matches exactly the path `a.js`. -/
def wRuleJs : RslintStagedConfigItem := ⟨"*.js", fun p => p == ["a.js"], ["echo"]⟩

/-- Demo rule for C8 with two commands in declared order. -/
def ruleFmtLint : RslintStagedConfigItem := ⟨"*.ts", fun p => p == ["x.ts"], ["fmt", "lint"]⟩

/-- Event list of `ruleFmtLint` on the staged list `[x.ts]`. -/
def fmtLintTrace : List Event :=
  [Event.spawnEvt ⟨"fmt", [], [["x.ts"]]⟩, Event.spawnEvt ⟨"lint", [], [["x.ts"]]⟩]

/-- Event list of a sibling rule (`"*.md": "echo"` on the staged list `[y.md]`). -/
def echoTrace : List Event := [Event.spawnEvt ⟨"echo", [], [["y.md"]]⟩]

/-! ### Properties of the dedup step (`Vec::dedup`) -/

theorem rustDedupAux_chain' (t : List Path) :
    ∀ prev, List.Chain' (fun a b => a ≠ b) (prev :: rustDedupAux prev t) := by
  induction t with
  | nil => intro prev; simp [rustDedupAux]
  | cons b t ih =>
    intro prev
    by_cases h : prev = b
    · simpa [rustDedupAux, h] using ih b
    · simp only [rustDedupAux, if_neg h]
      rw [List.chain'_cons]
      exact ⟨h, ih b⟩

theorem rustDedupAux_sublist (t : List Path) : ∀ prev, List.Sublist (rustDedupAux prev t) t := by
  induction t with
  | nil => intro prev; simp [rustDedupAux]
  | cons b t ih =>
    intro prev
    by_cases h : prev = b
    · simp only [rustDedupAux, if_pos h]
      exact (ih prev).trans (List.sublist_cons_self b t)
    · simp only [rustDedupAux, if_neg h]
      exact (ih b).cons₂ b

theorem mem_rustDedupAux (t : List Path) :
    ∀ prev x, x ∈ prev :: rustDedupAux prev t ↔ x ∈ prev :: t := by
  induction t with
  | nil => intro prev x; simp [rustDedupAux]
  | cons b t ih =>
    intro prev x
    by_cases h : prev = b
    · subst h
      have h2 := ih prev x
      simp only [rustDedupAux, if_pos rfl, List.mem_cons] at h2 ⊢
      tauto
    · have h2 := ih b x
      simp only [rustDedupAux, if_neg h, List.mem_cons] at h2 ⊢
      tauto

theorem rustDedupAux_of_chain' (t : List Path) :
    ∀ prev, List.Chain' (fun a b => a ≠ b) (prev :: t) → rustDedupAux prev t = t := by
  induction t with
  | nil => intro prev _; rfl
  | cons b t ih =>
    intro prev h
    rw [List.chain'_cons] at h
    simp only [rustDedupAux, if_neg h.1]
    rw [ih b h.2]

theorem rustDedup_chain' (l : List Path) :
    List.Chain' (fun a b => a ≠ b) (rustDedup l) := by
  cases l with
  | nil => simp [rustDedup]
  | cons a t => exact rustDedupAux_chain' t a

theorem rustDedup_sublist (l : List Path) : List.Sublist (rustDedup l) l := by
  cases l with
  | nil => simp [rustDedup]
  | cons a t => exact (rustDedupAux_sublist t a).cons₂ a

theorem mem_rustDedup (l : List Path) (x : Path) : x ∈ rustDedup l ↔ x ∈ l := by
  cases l with
  | nil => simp [rustDedup]
  | cons a t => exact mem_rustDedupAux t a x

theorem rustDedup_eq_self (l : List Path)
    (h : List.Chain' (fun a b => a ≠ b) l) : rustDedup l = l := by
  cases l with
  | nil => rfl
  | cons a t =>
    simp only [rustDedup]
    rw [rustDedupAux_of_chain' t a h]

theorem rustDedup_idem (l : List Path) : rustDedup (rustDedup l) = rustDedup l :=
  rustDedup_eq_self _ (rustDedup_chain' l)

/-- C3 counterexample: two deltas that mention the path `a` at non-adjacent
positions survive the dedup step — `Vec::dedup` removes only consecutive
duplicates, so the deduplicated staged list still contains a repeated
element, contradicting the claimed absence of repeats. -/
theorem dedup_nonadjacent_counterexample :
    stagedFromDeltas [] [⟨some ["a"], some ["b"]⟩, ⟨some ["a"], none⟩]
        = [["a"], ["b"], ["a"]] ∧
      ¬ ([["a"], ["b"], ["a"]] : List Path).Nodup :=
  ⟨rfl, by decide⟩

/-- C3 (amended): the dedup step of staged-file location removes exactly the
adjacent duplicates: its output never has two consecutive equal elements, it
is idempotent, and it preserves the input order of the surviving elements
(the output is a sublist of the input, so the first element of each run is
kept); duplicates at non-adjacent positions are not removed. -/
theorem dedup_adjacent_only (l : List Path) :
    List.Chain' (fun a b => a ≠ b) (rustDedup l) ∧
      rustDedup (rustDedup l) = rustDedup l ∧ List.Sublist (rustDedup l) l :=
  ⟨rustDedup_chain' l, rustDedup_idem l, rustDedup_sublist l⟩

/-! ### Properties of the dispatch loop -/

theorem spawnCommands_ok (filtered : List Path) (spawnOk : String → Bool) :
    ∀ (cmds : List String) (tr : List Event),
      spawnCommands filtered spawnOk cmds = Except.ok tr →
        tr = cmds.map fun c =>
          Event.spawnEvt ⟨(splitAsciiWhitespace c).headD "",
            (splitAsciiWhitespace c).tail, filtered⟩ := by
  intro cmds
  induction cmds with
  | nil =>
    intro tr h
    simp only [spawnCommands, Except.ok.injEq] at h
    simp [← h]
  | cons cmd rest ih =>
    intro tr h
    cases hs : splitAsciiWhitespace cmd with
    | nil => simp [spawnCommands, hs] at h
    | cons exe args =>
      simp only [spawnCommands, hs] at h
      by_cases hok : spawnOk exe = true
      · rw [if_pos hok] at h
        cases hrec : spawnCommands filtered spawnOk rest with
        | error e0 => rw [hrec] at h; cases h
        | ok evts =>
          rw [hrec] at h
          simp only [Except.ok.injEq] at h
          subst h
          simp [hs, ih evts hrec]
      · rw [if_neg hok] at h
        cases h

theorem spawnCommands_no_wait (filtered : List Path) (spawnOk : String → Bool)
    (cmds : List String) (tr : List Event)
    (h : spawnCommands filtered spawnOk cmds = Except.ok tr) :
    ∀ e ∈ tr, isWaitE e = false := by
  intro e he
  rw [spawnCommands_ok filtered spawnOk cmds tr h] at he
  obtain ⟨c, _, rfl⟩ := List.mem_map.mp he
  rfl

theorem spawnCommands_pathArgs (filtered : List Path) (spawnOk : String → Bool)
    (cmds : List String) (tr : List Event)
    (h : spawnCommands filtered spawnOk cmds = Except.ok tr) :
    ∀ e ∈ tr, eventPathArgs e = filtered := by
  intro e he
  rw [spawnCommands_ok filtered spawnOk cmds tr h] at he
  obtain ⟨c, _, rfl⟩ := List.mem_map.mp he
  rfl

theorem dispatchRules_events (spawnOk : String → Bool) (staged : List Path) :
    ∀ (items : List RslintStagedConfigItem) (tr : List (List Event)),
      dispatchRules spawnOk staged items = Except.ok tr →
        ∀ es ∈ tr, ∃ item ∈ items, ruleEvents spawnOk staged item = Except.ok es := by
  intro items
  induction items with
  | nil =>
    intro tr h es hes
    simp only [dispatchRules, Except.ok.injEq] at h
    subst h
    simp at hes
  | cons item rest ih =>
    intro tr h es hes
    simp only [dispatchRules] at h
    cases h1 : ruleEvents spawnOk staged item with
    | error e0 => rw [h1] at h; cases h
    | ok evts =>
      rw [h1] at h
      cases h2 : dispatchRules spawnOk staged rest with
      | error e0 => rw [h2] at h; cases h
      | ok trs =>
        rw [h2] at h
        simp only [Except.ok.injEq] at h
        subst h
        rcases List.mem_cons.mp hes with hes | hes
        · exact ⟨item, List.mem_cons_self item rest, hes ▸ h1⟩
        · obtain ⟨item', hmem, hit⟩ := ih trs h2 es hes
          exact ⟨item', List.mem_cons_of_mem item hmem, hit⟩

/-- C1 (code defect): the dispatch never records a wait on any spawned child —
every event of a successful run is a spawn — so `exec` returns, and the run
reports its overall status, without having joined any child process. -/
theorem run_returns_without_waiting
    (spawnOk : String → Bool) (cfg : RslintStagedConfig) (staged : List Path)
    (quiet : Bool) (tr : List (List Event))
    (h : execModel spawnOk cfg staged quiet = Except.ok tr) :
    ∀ es ∈ tr, ∀ e ∈ es, isWaitE e = false := by
  intro es hes e he
  unfold execModel at h
  by_cases hq : (staged.isEmpty && !quiet) = true
  · rw [if_pos hq] at h; cases h
  · rw [if_neg hq] at h
    obtain ⟨item, _, hit⟩ := dispatchRules_events spawnOk staged cfg.items tr h es hes
    exact spawnCommands_no_wait _ spawnOk item.commands es hit e he

/-- Closed instance of `run_returns_without_waiting` at a concrete run. -/
theorem run_returns_without_waiting_witness :
    isWaitE (Event.spawnEvt ⟨"false", [], [["a.js"]]⟩) = false :=
  run_returns_without_waiting (fun _ => true)
    ⟨[⟨"*", fun p => p == ["a.js"], ["false"]⟩]⟩ [["a.js"]] false
    [[Event.spawnEvt ⟨"false", [], [["a.js"]]⟩]] rfl
    [Event.spawnEvt ⟨"false", [], [["a.js"]]⟩] (by simp)
    (Event.spawnEvt ⟨"false", [], [["a.js"]]⟩) (by simp)

/-- C2 (code defect): the run never observes child exit statuses — dispatch ends
in `ok` and the process exit code is 0 even though its only spawned command is
`false`, which always exits non-zero (no aggregate of failures exists anywhere
in the run); and a command that fails to start is not recorded as a non-fatal
per-invocation failure but panics the run (`spawn().unwrap()`). -/
theorem failures_never_aggregated :
    execModel (fun _ => true) cfgFalse [["a.js"]] false
        = Except.ok [[Event.spawnEvt ⟨"false", [], [["a.js"]]⟩]] ∧
      mainExitCode (execModel (fun _ => true) cfgFalse [["a.js"]] false) = 0 ∧
      execModel (fun exe => !(exe == "notfound")) cfgMissing [["a.js"]] false
        = Except.error RPanic.unwrapNone :=
  ⟨rfl, rfl, rfl⟩

/-- C4 counterexample: with an empty staged list and quiet mode enabled, the
run does not finish with zero spawned commands — it dispatches every rule's
commands with zero trailing path arguments; here one `echo` child is
spawned. -/
theorem quiet_empty_still_spawns :
    execModel (fun _ => true) cfgEcho [] true
        = Except.ok [[Event.spawnEvt ⟨"echo", [], []⟩]] ∧
      countSpawnsTotal [[Event.spawnEvt ⟨"echo", [], []⟩]] = 1 :=
  ⟨rfl, rfl⟩

/-- C4 (amended): with an empty staged list and quiet mode disabled the run
panics ("Empty staged files") before any command is spawned; with quiet mode
enabled the run proceeds and dispatches every rule's commands, each spawned
with an empty trailing path-argument list. -/
theorem empty_staged_behavior :
    (∀ (spawnOk : String → Bool) (cfg : RslintStagedConfig),
        execModel spawnOk cfg [] false
          = Except.error (RPanic.explicitPanic "Empty staged files")) ∧
      (∀ (spawnOk : String → Bool) (cfg : RslintStagedConfig) (tr : List (List Event)),
        execModel spawnOk cfg [] true = Except.ok tr →
          ∀ es ∈ tr, ∀ e ∈ es, eventPathArgs e = []) := by
  refine ⟨fun spawnOk cfg => rfl, ?_⟩
  intro spawnOk cfg tr h es hes e he
  unfold execModel at h
  simp only [List.isEmpty_nil, Bool.not_true, Bool.and_false, Bool.false_eq_true,
    if_false] at h
  obtain ⟨item, _, hit⟩ := dispatchRules_events spawnOk [] cfg.items tr h es hes
  exact spawnCommands_pathArgs _ spawnOk item.commands es hit e he

/-- Closed instance of `empty_staged_behavior` at a concrete configuration. -/
theorem empty_staged_behavior_witness :
    execModel (fun _ => true) cfgEcho [] false
        = Except.error (RPanic.explicitPanic "Empty staged files") ∧
      eventPathArgs (Event.spawnEvt ⟨"echo", [], []⟩) = [] :=
  ⟨empty_staged_behavior.1 (fun _ => true) cfgEcho,
   empty_staged_behavior.2 (fun _ => true) cfgEcho
     [[Event.spawnEvt ⟨"echo", [], []⟩]] rfl
     [Event.spawnEvt ⟨"echo", [], []⟩] (by simp)
     (Event.spawnEvt ⟨"echo", [], []⟩) (by simp)⟩

/-- C7: per-rule filtering returns exactly the subset of the input paths that
satisfy the rule's matcher, in input order (the filtered list is a sublist of
the input), and every spawn of the rule's commands receives exactly that
filtered list as its trailing path arguments — a non-matching path is never
passed to the rule's commands. -/
theorem rule_filter_exact :
    (∀ (item : RslintStagedConfigItem) (staged : List Path) (p : Path),
        p ∈ ruleFiltered staged item ↔ p ∈ staged ∧ item.path_matcher p = true) ∧
      (∀ (item : RslintStagedConfigItem) (staged : List Path),
        List.Sublist (ruleFiltered staged item) staged) ∧
      (∀ (spawnOk : String → Bool) (staged : List Path)
          (item : RslintStagedConfigItem) (tr : List Event),
        ruleEvents spawnOk staged item = Except.ok tr →
          ∀ e ∈ tr, eventPathArgs e = ruleFiltered staged item) :=
  ⟨fun _ _ _ => List.mem_filter, fun _ staged => List.filter_sublist staged,
   fun spawnOk _ item tr h => spawnCommands_pathArgs _ spawnOk item.commands tr h⟩

/-- Closed instance of `rule_filter_exact` at a concrete rule and staged list. -/
theorem rule_filter_exact_witness :
    (["a.js"] : Path) ∈ ruleFiltered [["a.js"], ["b.txt"]] wRuleJs ∧
      eventPathArgs (Event.spawnEvt ⟨"echo", [], [["a.js"]]⟩)
        = ruleFiltered [["a.js"], ["b.txt"]] wRuleJs :=
  ⟨(rule_filter_exact.1 wRuleJs [["a.js"], ["b.txt"]] ["a.js"]).mpr ⟨by simp, rfl⟩,
   rule_filter_exact.2.2 (fun _ => true) [["a.js"], ["b.txt"]] wRuleJs
     [Event.spawnEvt ⟨"echo", [], [["a.js"]]⟩] rfl
     (Event.spawnEvt ⟨"echo", [], [["a.js"]]⟩) (by simp)⟩

theorem interleave_nil_left : ∀ ys : List Event, Interleave [] ys ys := by
  intro ys
  induction ys with
  | nil => exact Interleave.nil
  | cons y ys ih => exact Interleave.right ih

theorem interleave_nil_right : ∀ xs : List Event, Interleave xs [] xs := by
  intro xs
  induction xs with
  | nil => exact Interleave.nil
  | cons x xs ih => exact Interleave.left ih

theorem interleave_append_left : ∀ xs ys : List Event, Interleave xs ys (xs ++ ys) := by
  intro xs ys
  induction xs with
  | nil => simpa using interleave_nil_left ys
  | cons x xs ih => exact Interleave.left ih

theorem interleave_append_right : ∀ xs ys : List Event, Interleave xs ys (ys ++ xs) := by
  intro xs ys
  induction ys with
  | nil => simpa using interleave_nil_right xs
  | cons y ys ih => exact Interleave.right ih

/-- C8: when a rule's dispatch succeeds its event list is exactly its command
list mapped in declared order (the i-th spawn belongs to the i-th command, so
earlier commands are spawned before later ones); the demo rule produces its
`fmt` spawn before its `lint` spawn; and across two rules no ordering is
imposed — both relative orders of the two rules' traces are admissible
interleavings. -/
theorem commands_in_declared_order :
    (∀ (spawnOk : String → Bool) (staged : List Path)
        (item : RslintStagedConfigItem) (tr : List Event),
      ruleEvents spawnOk staged item = Except.ok tr →
        tr = item.commands.map fun c =>
          Event.spawnEvt ⟨(splitAsciiWhitespace c).headD "",
            (splitAsciiWhitespace c).tail, ruleFiltered staged item⟩) ∧
      ruleEvents (fun _ => true) [["x.ts"]] ruleFmtLint = Except.ok fmtLintTrace ∧
      Interleave fmtLintTrace echoTrace (fmtLintTrace ++ echoTrace) ∧
      Interleave fmtLintTrace echoTrace (echoTrace ++ fmtLintTrace) :=
  ⟨fun spawnOk _ item tr h => spawnCommands_ok _ spawnOk item.commands tr h,
   rfl, interleave_append_left _ _, interleave_append_right _ _⟩

/-- Closed instance of `commands_in_declared_order` at the demo rule. -/
theorem commands_in_declared_order_witness :
    fmtLintTrace = ruleFmtLint.commands.map fun c =>
      Event.spawnEvt ⟨(splitAsciiWhitespace c).headD "",
        (splitAsciiWhitespace c).tail, ruleFiltered [["x.ts"]] ruleFmtLint⟩ :=
  commands_in_declared_order.1 (fun _ => true) [["x.ts"]] ruleFmtLint fmtLintTrace rfl

/-- All-whitespace character lists produce no tokens. -/
theorem wsTokensAux_all_ws :
    ∀ cs : List Char, cs.all isAsciiWs = true → wsTokensAux cs [] = [] := by
  intro cs
  induction cs with
  | nil => intro _; rfl
  | cons c cs ih =>
    intro h
    rw [List.all_cons, Bool.and_eq_true] at h
    simp [wsTokensAux, h.1, ih h.2]

theorem spawnCommands_idx_err (filtered : List Path) :
    ∀ cmds : List String,
      (spawnCommands filtered (fun _ => true) cmds
          = Except.error RPanic.indexOutOfBounds ↔
        ∃ c ∈ cmds, splitAsciiWhitespace c = []) := by
  intro cmds
  induction cmds with
  | nil => simp [spawnCommands]
  | cons cmd rest ih =>
    cases hs : splitAsciiWhitespace cmd with
    | nil => simp [spawnCommands, hs]
    | cons exe args =>
      cases hrec : spawnCommands filtered (fun _ => true) rest with
      | error e0 =>
        rw [hrec] at ih
        simp only [spawnCommands, hs, hrec, List.mem_cons, if_true]
        constructor
        · intro h
          obtain ⟨c, hc, hsp⟩ := ih.mp h
          exact ⟨c, Or.inr hc, hsp⟩
        · rintro ⟨c, hc | hc, hsp⟩
          · subst hc; rw [hsp] at hs; cases hs
          · exact ih.mpr ⟨c, hc, hsp⟩
      | ok evts =>
        rw [hrec] at ih
        simp only [spawnCommands, hs, hrec, List.mem_cons, if_true]
        constructor
        · intro h; cases h
        · rintro ⟨c, hc | hc, hsp⟩
          · subst hc; rw [hsp] at hs; cases hs
          · exact absurd (ih.mpr ⟨c, hc, hsp⟩) (by simp)

/-- C9: an all-whitespace (or empty) command string splits into zero tokens,
and — with every spawn succeeding, so the token-0 access is the only panic
source — dispatching a rule panics with the out-of-bounds index exactly when
some command string of the rule yields zero tokens. -/
theorem empty_command_token_behavior :
    (∀ s : String, s.toList.all isAsciiWs = true → splitAsciiWhitespace s = []) ∧
      (∀ (staged : List Path) (item : RslintStagedConfigItem),
        ruleEvents (fun _ => true) staged item
            = Except.error RPanic.indexOutOfBounds ↔
          ∃ c ∈ item.commands, splitAsciiWhitespace c = []) :=
  ⟨fun s h => by
      unfold splitAsciiWhitespace
      rw [wsTokensAux_all_ws s.toList h]
      rfl,
   fun staged item => spawnCommands_idx_err (ruleFiltered staged item) item.commands⟩

/-- Closed instance of `empty_command_token_behavior`: the blank command makes
the rule's dispatch panic at the token-0 index. -/
theorem empty_command_token_behavior_witness :
    splitAsciiWhitespace " " = [] ∧
      ruleEvents (fun _ => true) [] ⟨"*", fun _ => true, [" "]⟩
        = Except.error RPanic.indexOutOfBounds :=
  ⟨empty_command_token_behavior.1 " " (by decide),
   (empty_command_token_behavior.2 [] ⟨"*", fun _ => true, [" "]⟩).mpr
     ⟨" ", by simp, empty_command_token_behavior.1 " " (by decide)⟩⟩

/-! ### Configuration compilation (C5) -/

theorem stringsFromJson_isSome :
    ∀ elems : List JsonValue, (stringsFromJson elems).isSome = elems.all isStrJson := by
  intro elems
  induction elems with
  | nil => rfl
  | cons v rest ih =>
    cases v <;> simp [stringsFromJson, isStrJson, List.all_cons, ih]

theorem itemFromEntry_isOk (globParse : String → Option (Path → Bool))
    (entry : String × JsonValue) :
    isOkB (itemFromEntry globParse entry) = entryOk globParse entry := by
  obtain ⟨pat, value⟩ := entry
  cases hg : globParse pat with
  | none => simp [itemFromEntry, entryOk, hg, isOkB]
  | some m =>
    cases value with
    | str s => simp [itemFromEntry, entryOk, hg, isOkB, valueOk]
    | arr elems =>
      cases hs : stringsFromJson elems with
      | none =>
        have h2 := stringsFromJson_isSome elems
        rw [hs] at h2
        simp [itemFromEntry, entryOk, hg, hs, isOkB, valueOk, ← h2]
      | some cmds =>
        have h2 := stringsFromJson_isSome elems
        rw [hs] at h2
        simp [itemFromEntry, entryOk, hg, hs, isOkB, valueOk, ← h2]
    | null => simp [itemFromEntry, entryOk, hg, isOkB, valueOk]
    | bool b => simp [itemFromEntry, entryOk, hg, isOkB, valueOk]
    | num n => simp [itemFromEntry, entryOk, hg, isOkB, valueOk]
    | obj fields => simp [itemFromEntry, entryOk, hg, isOkB, valueOk]

theorem itemsFromFields_isOk (globParse : String → Option (Path → Bool)) :
    ∀ fields : List (String × JsonValue),
      isOkB (itemsFromFields globParse fields) = fields.all (entryOk globParse) := by
  intro fields
  induction fields with
  | nil => rfl
  | cons entry rest ih =>
    cases h1 : itemFromEntry globParse entry with
    | error e0 =>
      have h2 := itemFromEntry_isOk globParse entry
      rw [h1] at h2
      simp [itemsFromFields, h1, isOkB, List.all_cons, ← h2]
    | ok item =>
      have h2 := itemFromEntry_isOk globParse entry
      rw [h1] at h2
      cases h3 : itemsFromFields globParse rest with
      | error e0 =>
        rw [h3] at ih
        simp [itemsFromFields, h1, h3, isOkB, List.all_cons, ← h2, ← ih]
      | ok items =>
        rw [h3] at ih
        simp [itemsFromFields, h1, h3, isOkB, List.all_cons, ← h2, ← ih]

/-- C5 counterexample: a failing glob pattern does not yield a recoverable
`ConfigError` value — configuration compilation panics (`unwrap` on the failed
glob compilation): the outcome is an `RPanic`, and the model of `from_json`
has no recoverable-error outcome at all, only success or panic. -/
theorem config_glob_failure_counterexample :
    RslintStagedConfig.from_json badGlobOracle
        (JsonValue.obj [("[", JsonValue.str "echo")])
      = Except.error RPanic.unwrapNone :=
  rfl

/-- C5 (amended): configuration compilation panics — an uncontrolled
termination, not a recoverable `ConfigError` value — whenever the top level is
not an object, some glob pattern fails to parse, or some mapping value is
neither a single command string nor an array of command strings; it succeeds
otherwise: on an object it succeeds exactly when every entry has a parsable
glob and a well-formed value. -/
theorem from_json_outcome :
    (∀ (globParse : String → Option (Path → Bool))
        (fields : List (String × JsonValue)),
      isOkB (RslintStagedConfig.from_json globParse (JsonValue.obj fields))
        = fields.all (entryOk globParse)) ∧
      (∀ (globParse : String → Option (Path → Bool)) (j : JsonValue),
        jsonIsObj j = false →
          RslintStagedConfig.from_json globParse j
            = Except.error (RPanic.explicitPanic "Unvalid config")) := by
  constructor
  · intro globParse fields
    have h2 := itemsFromFields_isOk globParse fields
    cases h3 : itemsFromFields globParse fields with
    | error e0 =>
      rw [h3] at h2
      simp [RslintStagedConfig.from_json, h3, isOkB, ← h2]
    | ok items =>
      rw [h3] at h2
      simp [RslintStagedConfig.from_json, h3, isOkB, ← h2]
  · intro globParse j h
    cases j <;> first
      | rfl
      | exact absurd h (by simp [jsonIsObj])

/-- Closed instance of `from_json_outcome`: a well-formed one-entry config
compiles, and a non-object config panics with "Unvalid config". -/
theorem from_json_outcome_witness :
    isOkB (RslintStagedConfig.from_json (fun _ => some fun _ => true)
        (JsonValue.obj [("*.js", JsonValue.str "echo")])) = true ∧
      RslintStagedConfig.from_json (fun _ => some fun _ => true)
          (JsonValue.str "zz")
        = Except.error (RPanic.explicitPanic "Unvalid config") :=
  ⟨(from_json_outcome.1 (fun _ => some fun _ => true)
      [("*.js", JsonValue.str "echo")]).trans rfl,
   from_json_outcome.2 (fun _ => some fun _ => true) (JsonValue.str "zz") rfl⟩

/-! ### Staged-file location (C6, C10) -/

/-- C6: staged-file location returns the empty list on an empty diff; a path
is in its result exactly when some delta of the head-tree-to-index diff has it
as its pre-change or post-change path (when present), joined against the
repository root; and when HEAD resolves, `staged_files` returns exactly this
delta-collection result. -/
theorem staged_collection :
    (∀ root : Path, stagedFromDeltas root [] = []) ∧
      (∀ (root : Path) (deltas : List Delta) (p : Path),
        p ∈ stagedFromDeltas root deltas ↔
          ∃ d ∈ deltas, ∃ q, (d.old = some q ∨ d.new = some q) ∧ p = root ++ q) ∧
      (∀ (root : Path) (ds : List Delta),
        staged_files root ⟨some (), ds⟩ = Except.ok (stagedFromDeltas root ds)) := by
  refine ⟨fun root => rfl, ?_, fun root ds => rfl⟩
  intro root deltas p
  unfold stagedFromDeltas
  rw [mem_rustDedup]
  simp only [List.mem_map, List.mem_filterMap, List.mem_flatMap, List.mem_cons,
    List.mem_singleton, id_eq, List.not_mem_nil, or_false]
  constructor
  · rintro ⟨q, ⟨o, ⟨d, hd, ho⟩, rfl⟩, rfl⟩
    rcases ho with ho | ho
    · exact ⟨d, hd, q, Or.inl ho.symm, rfl⟩
    · exact ⟨d, hd, q, Or.inr ho.symm, rfl⟩
  · rintro ⟨d, hd, q, hq | hq, rfl⟩
    · exact ⟨q, ⟨d.old, ⟨d, hd, Or.inl rfl⟩, hq.symm ▸ rfl⟩, rfl⟩
    · exact ⟨q, ⟨d.new, ⟨d, hd, Or.inr rfl⟩, hq.symm ▸ rfl⟩, rfl⟩

/-- C10: when HEAD does not resolve to a commit tree, `staged_files` panics
via `unwrap` (it has no `VcsQueryError`-style recoverable outcome), and it
returns normally exactly when HEAD resolves to a tree. -/
theorem head_unwrap_behavior :
    (∀ (root : Path) (ds : List Delta),
        staged_files root ⟨none, ds⟩ = Except.error RPanic.unwrapNone) ∧
      (∀ (root : Path) (st : RepoState),
        isOkB (staged_files root st) = st.headTree.isSome) := by
  refine ⟨fun root ds => rfl, ?_⟩
  intro root st
  obtain ⟨ht, ds⟩ := st
  cases ht <;> rfl

end Rslint
